import Mathlib

/-!
Verification development for the reddit-discord-verifier repository.

The repository consists of two Node.js entry scripts:
  * the command bot (README plus embedded `index.js` in `src/unnamed/part_000`),
    whose core functions are `normalize`, `stripMarkdown`,
    `buildFullTextFromMessage`, `parseModmailMessageFromFullText`,
    `findMatchingModmail`, `handleVerifyCommand`;
  * the modmail-watch script `src/index.js`, whose core pieces are
    `stripFormatting` and the inline Participant/Author/Body extraction of the
    `MessageCreate` handler.

Strings are modelled as `List Char`.  JavaScript string operations used by the
code (`trim`, `toLowerCase`, `split`, `startsWith`, `includes`, and the handful
of concrete regular expressions) are given explicit executable definitions
whose semantics follow the JS originals on the exact patterns the code uses.
`toLowerCase` is modelled by ASCII lowercasing (`Char.toLower`); case mapping
of non-ASCII letters is not modelled.  JS whitespace (`\s`, `trim`) is the set
`isJsWs` below.
-/

/-- Whitespace class used by JS `trim` and `\s`. -/
def isJsWs (c : Char) : Bool :=
  c == ' ' || c == '\t' || c == '\n' || c == '\r' ||
  c.toNat == 11 || c.toNat == 12 || c.toNat == 0xa0 || c.toNat == 0x1680 ||
  (0x2000 ≤ c.toNat && c.toNat ≤ 0x200a) ||
  c.toNat == 0x2028 || c.toNat == 0x2029 || c.toNat == 0x202f ||
  c.toNat == 0x205f || c.toNat == 0x3000 || c.toNat == 0xfeff

/-- Line-break characters excluded by the regex class `[^\n\r]`. -/
def isNewlineChar (c : Char) : Bool :=
  c == '\n' || c == '\r'

/-- JS `String.prototype.toLowerCase`, restricted to ASCII case mapping. -/
def jsToLowerL (l : List Char) : List Char :=
  l.map Char.toLower

/-- JS `String.prototype.trim`: drop whitespace from both ends. -/
def jsTrim (l : List Char) : List Char :=
  ((l.dropWhile isJsWs).reverse.dropWhile isJsWs).reverse

/-- JS `String.prototype.split(sep)` for a single-character separator.  The
result list is always non-empty; a separator starts a new (initially empty)
field, any other character is prepended to the current first field. -/
def splitOnChar (sep : Char) : List Char → List (List Char)
  | [] => [[]]
  | c :: rest =>
    let r := splitOnChar sep rest
    if c = sep then [] :: r else (c :: r.headD []) :: r.tail

/-- JS `String.prototype.includes(needle)`: substring containment. -/
def listContainsSub (needle : List Char) : List Char → Bool
  | [] => needle.isEmpty
  | c :: rest => needle.isPrefixOf (c :: rest) || listContainsSub needle rest

/-- The backtick character (ASCII 96). -/
def backtickChar : Char := Char.ofNat 96

/-- The apostrophe character (ASCII 39). -/
def apostropheChar : Char := Char.ofNat 39

/-! ### Label and marker constants used by the two scripts -/

def authorLabel : List Char := "author:".data

def bodyLabel : List Char := "body:".data

def statusLabel : List Char := "status:".data

def participantLabel : List Char := "participant:".data

def bannedMark : List Char := "banned".data

def unknownStatus : List Char := "Unknown".data

def redditUserFallback : List Char := "RedditUser".data

def discordLit : List Char := "discord".data

def withLit : List Char := "with".data

def idLit : List Char := "id".data

def uSlashMark : List Char := "u/".data

/-- Bot echo marker `"✅ Linked Reddit"` (the check-mark is U+2705). -/
def linkedEchoMark : List Char := [Char.ofNat 0x2705, ' '] ++ "Linked Reddit".data

/-- Bot echo marker `"I couldn't find a member"`. -/
def couldntFindMark : List Char :=
  "I couldn".data ++ [apostropheChar] ++ "t find a member".data

/-! ### part_000: `normalize` and `stripMarkdown` -/

/-- part_000 `normalize(str)`: `(str || '').trim().toLowerCase()`. -/
def jsNormalize (l : List Char) : List Char :=
  jsToLowerL (jsTrim l)

/-- The regex `^\*{1,2}` replaced by the empty string: greedily drop up to two
leading asterisks. -/
def dropLeadStars (l : List Char) : List Char :=
  match l with
  | [] => []
  | [c1] => if c1 = '*' then [] else l
  | c1 :: c2 :: r => if c1 = '*' then (if c2 = '*' then r else c2 :: r) else l

/-- The regex `\*{1,2}$` replaced by the empty string: greedily drop up to two
trailing asterisks. -/
def dropTrailStars (l : List Char) : List Char :=
  (dropLeadStars l.reverse).reverse

/-- part_000 regex `^\[([^\]]+)\]\([^)]+\)$`: the whole string must be a
markdown link `[label](url)` with non-empty label and url; returns the label.
The character classes force the match to use the first `]` and first `)`. -/
def linkWholeMatch (l : List Char) : Option (List Char) :=
  match l with
  | [] => none
  | c :: rest =>
    if c = '[' then
      let a := rest.takeWhile (fun ch => !(ch == ']'))
      if a.isEmpty then none
      else
        match rest.drop a.length with
        | ']' :: '(' :: r2 =>
          let b := r2.takeWhile (fun ch => !(ch == ')'))
          if b.isEmpty then none
          else
            match r2.drop b.length with
            | [')'] => some a
            | _ => none
        | _ => none
    else none

/-- part_000 `stripMarkdown(str)`: strip up to two asterisks at each end,
unwrap a whole-string markdown link, strip asterisks again, trim. -/
def stripMarkdown (str : List Char) : List Char :=
  if str.isEmpty then str
  else
    let s1 := dropTrailStars (dropLeadStars str)
    let s2 :=
      match linkWholeMatch s1 with
      | some label => label
      | none => s1
    jsTrim (dropTrailStars (dropLeadStars s2))

/-! ### part_000: `parseModmailMessageFromFullText` -/

/-- A parsed modmail record `{ redditName, discordName, status }`. -/
structure ParsedModmail where
  redditName : List Char
  discordName : List Char
  status : List Char
deriving DecidableEq

/-- The non-empty trimmed lines of the full text:
`fullText.split('\n').map(l => l.trim()).filter(Boolean)`. -/
def linesOf (fullText : List Char) : List (List Char) :=
  ((splitOnChar '\n' fullText).map jsTrim).filter (fun l => !l.isEmpty)

def isLinkedEcho (l : List Char) : Bool := linkedEchoMark.isPrefixOf l

def isCouldntFindEcho (l : List Char) : Bool := couldntFindMark.isPrefixOf l

/-- `line.toLowerCase().startsWith('author:')`. -/
def isAuthorLine (l : List Char) : Bool := authorLabel.isPrefixOf (jsToLowerL l)

/-- `line.toLowerCase().startsWith('body:')`. -/
def isBodyLine (l : List Char) : Bool := bodyLabel.isPrefixOf (jsToLowerL l)

/-- `line.toLowerCase().startsWith('status:')`. -/
def isStatusLine (l : List Char) : Bool := statusLabel.isPrefixOf (jsToLowerL l)

/-- JS falsy-string test: an empty extraction result stands for `null`. -/
def nonEmptyOpt (w : List Char) : Option (List Char) :=
  if w.isEmpty then none else some w

/-- Reddit-name extraction of `parseModmailMessageFromFullText`: take the first
`Author:` line, strip the label and following whitespace (`^author:\s*`), trim,
strip markdown; if that yields nothing, fall back to `stripMarkdown(lines[0])`.
Empty results model JS falsy strings, so `none` means no name was extracted. -/
def extractRedditNameOpt (lines : List (List Char)) : Option (List Char) :=
  let fromAuthor : List Char :=
    match lines.find? isAuthorLine with
    | some l => stripMarkdown (jsTrim ((l.drop authorLabel.length).dropWhile isJsWs))
    | none => []
  let withFallback : List Char :=
    if fromAuthor.isEmpty then
      match lines with
      | [] => []
      | l0 :: _ => stripMarkdown l0
    else fromAuthor
  nonEmptyOpt withFallback

/-- Match a literal (already lower-case) at the head of `s`, case-insensitively;
returns the rest of `s` on success. -/
def expectCi (lit : List Char) (s : List Char) : Option (List Char) :=
  if jsToLowerL (s.take lit.length) = lit then some (s.drop lit.length) else none

/-- Regex `\s+`: consume at least one whitespace character (maximal run). -/
def expectWs1 (s : List Char) : Option (List Char) :=
  let r := s.dropWhile isJsWs
  if r.length < s.length then some r else none

/-- Regex `:\s*([^\s]+)`: a colon, optional whitespace, then capture a
non-empty maximal run of non-whitespace characters. -/
def afterColonCapture (s : List Char) : Option (List Char) :=
  match s with
  | ':' :: r =>
    if (r.dropWhile isJsWs).isEmpty then none
    else some ((r.dropWhile isJsWs).takeWhile (fun c => !(isJsWs c)))
  | _ => none

/-- The optional group `(?:\s+with\s+discord\s+id)` of the body regex. -/
def discordGroupTail (s : List Char) : Option (List Char) := do
  let s1 ← expectWs1 s
  let s2 ← expectCi withLit s1
  let s3 ← expectWs1 s2
  let s4 ← expectCi discordLit s3
  let s5 ← expectWs1 s4
  expectCi idLit s5

/-- part_000 body regex `/discord(?:\s+with\s+discord\s+id)?:\s*([^\s]+)/i`:
scan for the first position where `discord` matches case-insensitively; the
greedy optional group is tried first, then the group-less alternative; on
failure the scan advances one character. -/
def matchDiscordScan : List Char → Option (List Char)
  | [] => none
  | c :: rest =>
    match expectCi discordLit (c :: rest) with
    | some afterD =>
      match (discordGroupTail afterD).bind afterColonCapture with
      | some cap => some cap
      | none =>
        match afterColonCapture afterD with
        | some cap => some cap
        | none => matchDiscordScan rest
    | none => matchDiscordScan rest

/-- Discord-name extraction of `parseModmailMessageFromFullText`: find the
first `Body:` line, strip the label (`^body:\s*`), trim, strip markdown, then
apply the body regex; the capture is trimmed. -/
def extractDiscordNameOpt (lines : List (List Char)) : Option (List Char) :=
  match lines.find? isBodyLine with
  | none => none
  | some l =>
    let bodyPart := stripMarkdown (jsTrim ((l.drop bodyLabel.length).dropWhile isJsWs))
    match matchDiscordScan bodyPart with
    | none => none
    | some cap => some (jsTrim cap)

/-- Status extraction of `parseModmailMessageFromFullText`: find the first
`Status:` line, split it on `':'`, take `(parts[1] || '').trim()`, defaulting
to `'Unknown'` when absent or empty. -/
def statusOfLines (lines : List (List Char)) : List Char :=
  match lines.find? isStatusLine with
  | none => unknownStatus
  | some statusLine =>
    let second := (splitOnChar ':' statusLine).getD 1 []
    let s := jsTrim second
    if s.isEmpty then unknownStatus else s

/-- part_000 `parseModmailMessageFromFullText(fullText)`. -/
def parseModmailMessageFromFullText (fullText : List Char) : Option ParsedModmail :=
  match linesOf fullText with
  | [] => none
  | l0 :: rest =>
    if isLinkedEcho l0 || isCouldntFindEcho l0 then none
    else
      match extractRedditNameOpt (l0 :: rest), extractDiscordNameOpt (l0 :: rest) with
      | some r, some d => some ⟨r, d, statusOfLines (l0 :: rest)⟩
      | _, _ => none

/-! ### part_000: `buildFullTextFromMessage` and `findMatchingModmail` -/

/-- A labelled field of an embed; `name`/`value` empty models JS `|| ''`. -/
structure EmbedField where
  name : List Char
  value : List Char
deriving DecidableEq

/-- An embed: `description` empty models a falsy description. -/
structure MsgEmbed where
  description : List Char
  fields : List EmbedField
deriving DecidableEq

/-- A fetched channel message (the fields the scanner reads). -/
structure RawMsg where
  content : List Char
  embeds : List MsgEmbed
  createdTimestamp : Int
deriving DecidableEq

/-- The invoking member's candidate names; `globalName` empty models
`member.user.globalName || ''`. -/
structure MemberInfo where
  username : List Char
  globalName : List Char
deriving DecidableEq

def colonSpace : List Char := ':' :: [' ']

def renderEmbedParts (e : MsgEmbed) : List (List Char) :=
  (if e.description.isEmpty then [] else [e.description]) ++
  e.fields.map (fun f => f.name ++ colonSpace ++ f.value)

/-- part_000 `buildFullTextFromMessage(message)`: the plain content (if its
trim is non-empty), then for each embed its description (if truthy) and each
field rendered `"Name: Value"`, all joined with newlines. -/
def buildFullTextFromMessage (m : RawMsg) : List Char :=
  let parts :=
    (if (jsTrim m.content).isEmpty then [] else [m.content]) ++
    (m.embeds.map renderEmbedParts).flatten
  List.intercalate ['\n'] parts

/-- `MAX_SCANNED` of `findMatchingModmail`. -/
def maxScannedCount : Nat := 500

/-- The per-message body of the `findMatchingModmail` loop: parse the message,
then apply the banned-status / reddit-name / discord-name checks (each `continue`
in the source is a `none` here).  Inputs `targetReddit`, `username`,
`globalName` are already normalized, as in the source. -/
def msgMatches (targetReddit username globalName : List Char) (msg : RawMsg) :
    Option (ParsedModmail × RawMsg) :=
  match parseModmailMessageFromFullText (buildFullTextFromMessage msg) with
  | none => none
  | some parsed =>
    let parsedReddit := jsNormalize parsed.redditName
    let parsedDiscord := jsNormalize parsed.discordName
    if !parsed.status.isEmpty && listContainsSub bannedMark (jsToLowerL parsed.status) then
      none
    else if !(parsedReddit = targetReddit) then none
    else if parsedDiscord = username ∨ (!globalName.isEmpty ∧ parsedDiscord = globalName) then
      some (parsed, msg)
    else none

/-- The scanning loop of `findMatchingModmail` over the newest-first message
sequence (pagination flattened into one list, as the pages are fetched
newest-first and concatenated): count the message, stop past `MAX_SCANNED`,
stop at the first message older than the cutoff, otherwise test the message. -/
def findMatchAux (targetReddit username globalName : List Char) (cutoff : Int) :
    List RawMsg → Nat → Option (ParsedModmail × RawMsg)
  | [], _ => none
  | msg :: rest, scanned =>
    if scanned + 1 > maxScannedCount then none
    else if msg.createdTimestamp < cutoff then none
    else
      match msgMatches targetReddit username globalName msg with
      | some hit => some hit
      | none => findMatchAux targetReddit username globalName cutoff rest (scanned + 1)

/-- part_000 `findMatchingModmail(modmailChannel, redditNameInput, member,
lookbackHours)`: cutoff is `Date.now() - lookbackHours*60*60*1000` (the call
time is the explicit `now`), the three comparison keys are normalized once,
then the newest-first scan runs. -/
def findMatchingModmail (msgs : List RawMsg) (redditNameInput : List Char)
    (member : MemberInfo) (now lookbackHours : Int) :
    Option (ParsedModmail × RawMsg) :=
  let cutoff := now - lookbackHours * 60 * 60 * 1000
  findMatchAux (jsNormalize redditNameInput) (jsNormalize member.username)
    (jsNormalize member.globalName) cutoff msgs 0

/-! ### part_000: `handleVerifyCommand` argument handling and outcome -/

/-- The `u/` handling of `handleVerifyCommand`:
`if (redditNameInput.toLowerCase().startsWith('u/')) redditNameInput = redditNameInput.substring(2)`. -/
def stripLeadingU (arg : List Char) : List Char :=
  if uSlashMark.isPrefixOf (jsToLowerL arg) then arg.drop 2 else arg

/-- The modmail search performed by `handleVerifyCommand` for a given raw
command argument: the `u/` strip followed by `findMatchingModmail`. -/
def verifySearchOutcome (argIn : List Char) (msgs : List RawMsg)
    (member : MemberInfo) (now lookbackHours : Int) :
    Option (ParsedModmail × RawMsg) :=
  findMatchingModmail msgs (stripLeadingU argIn) member now lookbackHours

/-- The user-visible reply chosen by `handleVerifyCommand` after the search. -/
inductive VerifyReply where
  | noMatch
  | bannedNotice
  | roleFailNotice
  | successNotice
deriving DecidableEq

/-- The observable effects of one `handleVerifyCommand` attempt after the
search: which reply was sent, whether the role was granted, whether the rename
was attempted, and whether the nickname was actually set. -/
structure VerifyEffects where
  reply : VerifyReply
  roleGranted : Bool
  renameAttempted : Bool
  nicknameSet : Bool
deriving DecidableEq

/-- The post-search portion of `handleVerifyCommand`: on no match reply and
stop; on a banned status reply and stop; try the role grant — its failure
replies with the role error and stops (rename never attempted); on success the
rename is attempted, a rename failure is only logged (not fatal), and the
success reply is sent.  The fallible collaborator mutations are oracles
`roleGrantOk` / `renameOk`. -/
def handleVerifyOutcome (found : Option ParsedModmail) (roleGrantOk renameOk : Bool) :
    VerifyEffects :=
  match found with
  | none => ⟨.noMatch, false, false, false⟩
  | some parsed =>
    if !parsed.status.isEmpty && listContainsSub bannedMark (jsToLowerL parsed.status) then
      ⟨.bannedNotice, false, false, false⟩
    else if !roleGrantOk then ⟨.roleFailNotice, false, false, false⟩
    else ⟨.successNotice, true, true, renameOk⟩

/-! ### src/index.js: `stripFormatting` -/

/-- One attempted match of the link regex `\[([^\]]+)\]\([^)]*\)` starting
just after a `[`: a non-empty run up to the first `]`, then `](`, then a
possibly-empty run up to the first `)`, then `)`.  Returns the label and the
remaining input after the match. -/
def tryLink (rest : List Char) : Option (List Char × List Char) :=
  let a := rest.takeWhile (fun c => !(c == ']'))
  if a.isEmpty then none
  else
    match rest.drop a.length with
    | ']' :: '(' :: r2 =>
      let b := r2.takeWhile (fun c => !(c == ')'))
      match r2.drop b.length with
      | ')' :: rem => some (a, rem)
      | _ => none
    | _ => none

/-- Global replacement `text.replace(/\[([^\]]+)\]\([^)]*\)/g, '$1')`, scanning
left to right and resuming after each match.  The fuel argument only bounds the
recursion; every step consumes at least one character, so fuel `l.length`
(used by `replaceLinks`) is never exhausted. -/
def replaceLinksF : Nat → List Char → List Char
  | 0, l => l
  | _ + 1, [] => []
  | fuel + 1, c :: rest =>
    if c = '[' then
      match tryLink rest with
      | some (a, rem) => a ++ replaceLinksF fuel rem
      | none => c :: replaceLinksF fuel rest
    else c :: replaceLinksF fuel rest

def replaceLinks (l : List Char) : List Char := replaceLinksF l.length l

/-- Global replacement `.replace(/\*\*/g, '')`: delete `**` pairs left to
right. -/
def removeDoubleStars : List Char → List Char
  | [] => []
  | [c] => [c]
  | c :: c2 :: rest2 =>
    if c = '*' ∧ c2 = '*' then removeDoubleStars rest2
    else c :: removeDoubleStars (c2 :: rest2)

/-- Global replacement `.replace(/`...`/g, '')`: delete every backtick. -/
def removeBackticks (l : List Char) : List Char :=
  l.filter (fun c => !(c == backtickChar))

/-- src/index.js `stripFormatting(text)`: unwrap markdown links, delete `**`
pairs, delete backticks, trim. -/
def stripFormatting (text : List Char) : List Char :=
  jsTrim (removeBackticks (removeDoubleStars (replaceLinks text)))

/-! ### src/index.js: the Participant/Author extraction of the handler -/

/-- The `\s*([^\n\r]+)` part of the label regexes, applied to the text after
the label.  The greedy `\s*` first takes the maximal whitespace run; if a
character remains it is non-whitespace (hence not a newline) and the capture is
the maximal newline-free run from it.  If the whole rest is whitespace the
engine backtracks inside the run: the capture becomes the last non-newline
whitespace character, if any; otherwise this occurrence fails. -/
def captureAfterLabel (s : List Char) : Option (List Char) :=
  let r := s.dropWhile isJsWs
  if r.isEmpty then
    match s.reverse.dropWhile isNewlineChar with
    | [] => none
    | c :: _ => some [c]
  else some (r.takeWhile (fun c => !(isNewlineChar c)))

/-- JS `content.match(/LABEL:\s*([^\n\r]+)/i)` for a literal label: scan for
the first position where the label matches case-insensitively and the tail
capture succeeds; returns the capture. -/
def matchLabelCapture (label : List Char) : List Char → Option (List Char)
  | [] => none
  | c :: rest =>
    if jsToLowerL ((c :: rest).take label.length) = label then
      match captureAfterLabel ((c :: rest).drop label.length) with
      | some cap => some cap
      | none => matchLabelCapture label rest
    else matchLabelCapture label rest

/-- The reddit-user extraction of the src/index.js `MessageCreate` handler:
prefer the `Participant:` capture, else the `Author:` capture (each trimmed,
with an empty trim falling through as JS falsy), else the trimmed first-line
capture `/^([^\n\r]+)/`, else the literal `'RedditUser'`. -/
def extractRedditUser (content : List Char) : List Char :=
  let redditUser : List Char :=
    match matchLabelCapture participantLabel content with
    | some cap => jsTrim cap
    | none =>
      match matchLabelCapture authorLabel content with
      | some cap => jsTrim cap
      | none => []
  let fallback : List Char :=
    match content with
    | [] => []
    | c :: _ => if isNewlineChar c then [] else jsTrim (content.takeWhile (fun ch => !(isNewlineChar ch)))
  if !redditUser.isEmpty then redditUser
  else if !fallback.isEmpty then fallback
  else redditUserFallback

/-! ### src/index.js: role grant and rename of the `MessageCreate` handler -/

/-- The observable effects of steps 4–6 of the src/index.js handler. -/
structure AutoLinkEffects where
  repliedLinked : Bool
  roleAdded : Bool
  renameAttempted : Bool
  nicknameSet : Bool
deriving DecidableEq

/-- Steps 4–6 of the src/index.js `MessageCreate` handler, after a member was
resolved: if the configured role is missing, stop silently; otherwise attempt
the role grant when the member lacks the role — a grant failure is only logged
and the flow continues — then attempt the rename (failure also only logged) and
send the `✅ Linked ...` reply.  Fallible mutations are oracles. -/
def autoLinkOutcome (roleExists alreadyHasRole roleAddOk renameOk : Bool) :
    AutoLinkEffects :=
  if !roleExists then ⟨false, false, false, false⟩
  else if !alreadyHasRole then ⟨true, roleAddOk, true, renameOk⟩
  else ⟨true, false, true, renameOk⟩

/-! ### Spec-side definitions used by amended claims -/

/-- The remainder of a line after its first `':'` (the whole rest of the line),
as claim C9 words it. -/
def remainderAfterColon (l : List Char) : List Char :=
  (l.dropWhile (fun c => !(c == ':'))).drop 1

/-- Status field as the amended claim C9 words it: on the first `Status:` line,
the segment strictly between the first and second `':'` (to the end if there is
no second one), trimmed, defaulting to `'Unknown'` when there is no such line
or the segment trims to nothing. -/
def specStatusOfLines (lines : List (List Char)) : List Char :=
  match lines.find? isStatusLine with
  | none => unknownStatus
  | some statusLine =>
    let seg := jsTrim (((statusLine.dropWhile (fun c => !(c == ':'))).drop 1).takeWhile (fun c => !(c == ':')))
    if seg.isEmpty then unknownStatus else seg

/-! ### Concrete fixtures used by witnesses and counterexamples -/

def hermitName : List Char := "Hermit_Toad".data

def pikachuName : List Char := "pikachucatcher88".data

def activeWord : List Char := "Active".data

/-- The end-to-end scenario text of the spec (claim C8). -/
def c8Text : List Char :=
  "Author: Hermit_Toad\nBody: Register Discord with Discord ID: pikachucatcher88\nStatus: Active".data

def recHermit : ParsedModmail := ⟨hermitName, pikachuName, activeWord⟩

def memberPika : MemberInfo := ⟨pikachuName, []⟩

def msgTopA : RawMsg := ⟨c8Text, [], 10⟩

def msgTopB : RawMsg := ⟨c8Text, [], 5⟩

def msgStale : RawMsg := ⟨c8Text, [], -1⟩

def helloText : List Char := "Hello there".data

def statusColonLine : List Char := "Status: Banned: appeal denied".data

def statusColonText : List Char :=
  "Author: Anna\nBody: Verify Discord: bob\nStatus: Banned: appeal denied".data

def annaName : List Char := "Anna".data

def bobName : List Char := "bob".data

def bannedWord : List Char := "Banned".data

def bannedAppealWords : List Char := "Banned: appeal denied".data

def fiveStarText : List Char := "*****x".data

def nestedLinkText : List Char := "[a[b](c)d](e)".data

def plainSample : List Char := "hello world".data

def uSerText : List Char := "Author: u/ser\nBody: Verify Discord: alice\nStatus: Active".data

def msgUSer : RawMsg := ⟨uSerText, [], 5⟩

def aliceSlug : List Char := "alice".data

def memberAlice : MemberInfo := ⟨aliceSlug, []⟩

def uSerName : List Char := "u/ser".data

def recUSer : ParsedModmail := ⟨uSerName, aliceSlug, activeWord⟩

def doubleUText : List Char := "u/u/ser".data

def serName : List Char := "ser".data

def c4CexText : List Char :=
  "Author: Alice\nsee Participant: Bob here\nParticipant: Carol".data

def participantCarolLine : List Char := "Participant: Carol".data

def authorAliceLine : List Char := "Author: Alice".data

def bobHereName : List Char := "Bob here".data

def carolName : List Char := "Carol".data

def c4PreText : List Char := "Author: Alice\n".data

def c4LabText : List Char := "Participant:".data

def c4RestText : List Char := " Carol".data

/-! ### General helper lemmas about the string model -/

theorem dropWhile_head_false (p : Char → Bool) :
    ∀ (l : List Char) (c : Char) (t : List Char), l.dropWhile p = c :: t → p c = false := by
  intro l
  induction l with
  | nil => intro c t h; simp [List.dropWhile] at h
  | cons a l ih =>
    intro c t h
    rw [List.dropWhile_cons] at h
    by_cases hp : p a
    · rw [if_pos hp] at h; exact ih c t h
    · rw [if_neg hp] at h
      cases h
      exact Bool.eq_false_iff.mpr hp

theorem jsTrim_eq_rdrop (l : List Char) :
    jsTrim l = List.rdropWhile isJsWs (l.dropWhile isJsWs) := rfl

theorem jsTrim_dropWhile_absorb (l : List Char) :
    jsTrim (l.dropWhile isJsWs) = jsTrim l := by
  rw [jsTrim_eq_rdrop, jsTrim_eq_rdrop, List.dropWhile_idempotent]

theorem dropWhile_of_rdrop_of_dropWhile (l : List Char) :
    (List.rdropWhile isJsWs (l.dropWhile isJsWs)).dropWhile isJsWs =
      List.rdropWhile isJsWs (l.dropWhile isJsWs) := by
  rw [List.dropWhile_eq_self_iff]
  intro hl
  have hpre : List.rdropWhile isJsWs (l.dropWhile isJsWs) <+: l.dropWhile isJsWs :=
    List.rdropWhile_prefix isJsWs _
  have hlt : 0 < (l.dropWhile isJsWs).length := Nat.lt_of_lt_of_le hl hpre.length_le
  have hzero : (List.rdropWhile isJsWs (l.dropWhile isJsWs)).get ⟨0, hl⟩ =
      (l.dropWhile isJsWs).get ⟨0, hlt⟩ := by
    simp only [List.get_eq_getElem]
    exact hpre.getElem hl
  rw [hzero]
  exact (List.dropWhile_eq_self_iff.mp (List.dropWhile_idempotent isJsWs l)) hlt

theorem jsTrim_idem (l : List Char) : jsTrim (jsTrim l) = jsTrim l := by
  rw [jsTrim_eq_rdrop l, jsTrim_eq_rdrop, dropWhile_of_rdrop_of_dropWhile,
    List.rdropWhile_idempotent]

theorem mem_of_mem_jsTrim {c : Char} {l : List Char} (h : c ∈ jsTrim l) : c ∈ l := by
  rw [jsTrim_eq_rdrop] at h
  have h1 : c ∈ l.dropWhile isJsWs :=
    (List.rdropWhile_prefix isJsWs _).sublist.subset h
  exact (List.dropWhile_suffix isJsWs).sublist.subset h1

theorem jsTrim_eq_nil_of_all_ws {l : List Char} (h : ∀ c ∈ l, isJsWs c = true) :
    jsTrim l = [] := by
  rw [jsTrim_eq_rdrop, List.dropWhile_eq_nil_iff.mpr (by intro x hx; exact h x hx)]
  simp [List.rdropWhile]

theorem jsTrim_cons_ne_nil {c : Char} {cs : List Char} (h : isJsWs c = false) :
    jsTrim (c :: cs) ≠ [] := by
  rw [jsTrim_eq_rdrop]
  rw [List.dropWhile_cons, if_neg (by simp [h])]
  intro hcon
  have hws := List.rdropWhile_eq_nil_iff.mp hcon c (by simp)
  rw [h] at hws
  exact absurd hws (by decide)

theorem isJsWs_of_newline {c : Char} (h : isNewlineChar c = true) : isJsWs c = true := by
  unfold isNewlineChar at h
  rcases Bool.or_eq_true_iff.mp h with h1 | h1
  · rw [eq_of_beq h1]; decide
  · rw [eq_of_beq h1]; decide

theorem not_ws_of_not_newline {c : Char} (h : isJsWs c = false) : isNewlineChar c = false := by
  by_contra hcon
  rw [Bool.not_eq_false] at hcon
  rw [isJsWs_of_newline hcon] at h
  exact absurd h (by decide)

/-! ### Helper lemmas for claim C6 (normalizer idempotence) -/

theorem replaceLinksF_of_no_bracket :
    ∀ (fuel : Nat) (l : List Char), '[' ∉ l → replaceLinksF fuel l = l := by
  intro fuel l
  induction l generalizing fuel with
  | nil => intro _; cases fuel <;> rfl
  | cons c rest ih =>
    intro h
    have hc : ¬ c = '[' := fun hc => h (hc ▸ List.mem_cons_self c rest)
    have hrest : '[' ∉ rest := fun hm => h (List.mem_cons_of_mem c hm)
    cases fuel with
    | zero => rfl
    | succ fuel =>
      show (if c = '[' then _ else c :: replaceLinksF fuel rest) = c :: rest
      rw [if_neg hc, ih fuel hrest]

theorem removeDoubleStars_of_no_star :
    ∀ (l : List Char), '*' ∉ l → removeDoubleStars l = l := by
  intro l
  induction l with
  | nil => intro _; rfl
  | cons c rest ih =>
    intro h
    have hc : ¬ c = '*' := fun hc => h (hc ▸ List.mem_cons_self c rest)
    have hrest : '*' ∉ rest := fun hm => h (List.mem_cons_of_mem c hm)
    cases rest with
    | nil => rfl
    | cons c2 rest2 =>
      show (if c = '*' ∧ c2 = '*' then _ else c :: removeDoubleStars (c2 :: rest2)) = _
      rw [if_neg (fun hand => hc hand.1), ih hrest]

theorem removeBackticks_of_no_backtick (l : List Char) (h : backtickChar ∉ l) :
    removeBackticks l = l := by
  unfold removeBackticks
  rw [List.filter_eq_self]
  intro a ha
  simp only [Bool.not_eq_true']
  exact beq_eq_false_iff_ne.mpr (fun hac => h (hac ▸ ha))

theorem stripFormatting_eq_trim (x : List Char)
    (hs : '*' ∉ x) (hb : '[' ∉ x) (ht : backtickChar ∉ x) :
    stripFormatting x = jsTrim x := by
  unfold stripFormatting replaceLinks
  rw [replaceLinksF_of_no_bracket x.length x hb, removeDoubleStars_of_no_star x hs,
    removeBackticks_of_no_backtick x ht]

theorem dropLeadStars_of_no_star (l : List Char) (h : '*' ∉ l) : dropLeadStars l = l := by
  match l with
  | [] => rfl
  | [c1] =>
    have hc : ¬ c1 = '*' := fun hc => h (by rw [hc]; exact List.mem_cons_self _ _)
    simp [dropLeadStars, hc]
  | c1 :: c2 :: r =>
    have hc : ¬ c1 = '*' := fun hc => h (by rw [hc]; exact List.mem_cons_self _ _)
    simp [dropLeadStars, hc]

theorem dropTrailStars_of_no_star (l : List Char) (h : '*' ∉ l) : dropTrailStars l = l := by
  unfold dropTrailStars
  rw [dropLeadStars_of_no_star l.reverse (by simpa using h), List.reverse_reverse]

theorem linkWholeMatch_of_no_bracket (l : List Char) (h : '[' ∉ l) :
    linkWholeMatch l = none := by
  match l with
  | [] => rfl
  | c :: rest =>
    have hc : ¬ c = '[' := fun hc => h (by rw [hc]; exact List.mem_cons_self _ _)
    simp only [linkWholeMatch]
    rw [if_neg hc]

theorem stripMarkdown_eq_trim (x : List Char) (hs : '*' ∉ x) (hb : '[' ∉ x) :
    stripMarkdown x = jsTrim x := by
  unfold stripMarkdown
  by_cases hx : x.isEmpty
  · rw [if_pos hx]
    rw [List.isEmpty_iff.mp hx]
    rfl
  · rw [if_neg hx]
    simp only
    rw [dropLeadStars_of_no_star x hs, dropTrailStars_of_no_star x hs,
      linkWholeMatch_of_no_bracket x hb]
    simp only
    rw [dropLeadStars_of_no_star x hs, dropTrailStars_of_no_star x hs]

theorem not_mem_jsTrim_of_not_mem {c : Char} {l : List Char} (h : c ∉ l) : c ∉ jsTrim l :=
  fun hm => h (mem_of_mem_jsTrim hm)

/-- Claim C6 counterexample: the formatting normalizer is not idempotent.
For part_000 `stripMarkdown`, the input `"*****x"` normalizes to `"*x"`, which
normalizes again to `"x"`.  For src/index.js `stripFormatting`, the input
`"[a[b](c)d](e)"` normalizes to `"a[bd](e)"` (the global link replacement does
not rescan its own output), which normalizes again to `"abd"`. -/
theorem claim_C6_counterexample :
    stripMarkdown (stripMarkdown fiveStarText) ≠ stripMarkdown fiveStarText ∧
    stripFormatting (stripFormatting nestedLinkText) ≠ stripFormatting nestedLinkText := by
  constructor
  · decide
  · decide

/-- Claim C6 amended: both formatting normalizers are idempotent on every
string free of formatting markers (no asterisk, no opening bracket, no
backtick); on such strings each normalizer reduces to a trim, and trimming is
idempotent.  On strings with markers idempotence can fail (see the
counterexample). -/
theorem claim_C6_amended (x : List Char)
    (hs : '*' ∉ x) (hb : '[' ∉ x) (ht : backtickChar ∉ x) :
    stripFormatting (stripFormatting x) = stripFormatting x ∧
    stripMarkdown (stripMarkdown x) = stripMarkdown x := by
  have hF : stripFormatting x = jsTrim x := stripFormatting_eq_trim x hs hb ht
  have hM : stripMarkdown x = jsTrim x := stripMarkdown_eq_trim x hs hb
  have hs2 : '*' ∉ jsTrim x := not_mem_jsTrim_of_not_mem hs
  have hb2 : '[' ∉ jsTrim x := not_mem_jsTrim_of_not_mem hb
  have ht2 : backtickChar ∉ jsTrim x := not_mem_jsTrim_of_not_mem ht
  constructor
  · rw [hF, stripFormatting_eq_trim (jsTrim x) hs2 hb2 ht2, jsTrim_idem]
  · rw [hM, stripMarkdown_eq_trim (jsTrim x) hs2 hb2, jsTrim_idem]

/-- Witness for the amended claim C6 at the concrete marker-free input
`"hello world"`. -/
theorem claim_C6_amended_witness :
    stripFormatting (stripFormatting plainSample) = stripFormatting plainSample ∧
    stripMarkdown (stripMarkdown plainSample) = stripMarkdown plainSample :=
  claim_C6_amended plainSample (by decide) (by decide) (by decide)

/-- Claim C8: the parser applied to the exact scenario text
`"Author: Hermit_Toad\nBody: Register Discord with Discord ID: pikachucatcher88\nStatus: Active"`
returns exactly the record with reddit name `"Hermit_Toad"`, discord name
`"pikachucatcher88"` and status `"Active"`. -/
theorem claim_C8_scenario_parse :
    parseModmailMessageFromFullText c8Text = some recHermit := by
  decide

/-! ### Helper lemmas for claim C9 (status extraction) -/

theorem splitOnChar_cons (sep c : Char) (rest : List Char) :
    splitOnChar sep (c :: rest) =
      if c = sep then [] :: splitOnChar sep rest
      else (c :: (splitOnChar sep rest).headD []) :: (splitOnChar sep rest).tail := rfl

theorem splitOnChar_ne_nil (sep : Char) (l : List Char) : splitOnChar sep l ≠ [] := by
  cases l with
  | nil => simp [splitOnChar]
  | cons c rest =>
    rw [splitOnChar_cons]
    by_cases hc : c = sep
    · rw [if_pos hc]; simp
    · rw [if_neg hc]; simp

theorem splitOnChar_getD_zero (sep : Char) (l : List Char) :
    (splitOnChar sep l).getD 0 [] = l.takeWhile (fun c => !(c == sep)) := by
  induction l with
  | nil => rfl
  | cons c rest ih =>
    rw [splitOnChar_cons, List.takeWhile_cons]
    by_cases hc : c = sep
    · rw [if_pos hc]
      have hb : (!(c == sep)) = false := by simp [hc]
      rw [hb]
      rfl
    · rw [if_neg hc]
      have hb : (!(c == sep)) = true := by simp [hc]
      rw [hb]
      simp only [List.getD, List.get?_cons_zero, Option.getD_some]
      cases h : splitOnChar sep rest with
      | nil => exact absurd h (splitOnChar_ne_nil sep rest)
      | cons hd t =>
        have ihh := ih
        rw [h] at ihh
        simp only [List.headD_cons]
        simp only [List.getD, List.get?_cons_zero, Option.getD_some] at ihh
        rw [ihh]
        simp

theorem splitOnChar_getD_one (sep : Char) (l : List Char) :
    (splitOnChar sep l).getD 1 [] =
      ((l.dropWhile (fun c => !(c == sep))).drop 1).takeWhile (fun c => !(c == sep)) := by
  induction l with
  | nil => rfl
  | cons c rest ih =>
    rw [splitOnChar_cons, List.dropWhile_cons]
    by_cases hc : c = sep
    · rw [if_pos hc]
      have hb : (!(c == sep)) = false := by simp [hc]
      rw [hb]
      simp only [Bool.false_eq_true, if_false, List.drop_succ_cons, List.drop_zero]
      have h0 := splitOnChar_getD_zero sep rest
      simpa using h0
    · rw [if_neg hc]
      have hb : (!(c == sep)) = true := by simp [hc]
      rw [hb]
      simp only [if_true]
      cases h : splitOnChar sep rest with
      | nil => exact absurd h (splitOnChar_ne_nil sep rest)
      | cons hd t =>
        have ihh := ih
        rw [h] at ihh
        simpa using ihh

theorem statusOfLines_eq_spec (lines : List (List Char)) :
    statusOfLines lines = specStatusOfLines lines := by
  unfold statusOfLines specStatusOfLines
  cases h : lines.find? isStatusLine with
  | none => rfl
  | some sl =>
    simp only
    rw [splitOnChar_getD_one]

/-- Claim C9 counterexample: the parser does not keep the entire remainder of
the status line after the first separator.  On the scenario text whose status
line is `"Status: Banned: appeal denied"`, the code splits on every `':'` and
keeps only `parts[1]`, producing `"Banned"`, while the trimmed remainder after
the first separator is `"Banned: appeal denied"`. -/
theorem claim_C9_counterexample :
    parseModmailMessageFromFullText statusColonText = some ⟨annaName, bobName, bannedWord⟩ ∧
    jsTrim (remainderAfterColon statusColonLine) = bannedAppealWords ∧
    bannedWord ≠ bannedAppealWords := by
  refine ⟨by decide, by decide, by decide⟩

/-- Claim C9 amended: for every text on which the parser returns a record, the
record's status is the segment of the first status-labelled line strictly
between the first and second separator characters (to the end of the line if
there is no second separator), trimmed, and it defaults to the `"Unknown"`
sentinel when no status line exists or the segment trims to nothing. -/
theorem parseModmail_eq_nil (fullText : List Char) (h : linesOf fullText = []) :
    parseModmailMessageFromFullText fullText = none := by
  unfold parseModmailMessageFromFullText
  rw [h]

theorem parseModmail_eq_cons (fullText l0 : List Char) (rest : List (List Char))
    (h : linesOf fullText = l0 :: rest) :
    parseModmailMessageFromFullText fullText =
      if isLinkedEcho l0 || isCouldntFindEcho l0 then none
      else
        match extractRedditNameOpt (l0 :: rest), extractDiscordNameOpt (l0 :: rest) with
        | some r, some d => some ⟨r, d, statusOfLines (l0 :: rest)⟩
        | _, _ => none := by
  unfold parseModmailMessageFromFullText
  rw [h]

theorem claim_C9_amended (text : List Char) (r : ParsedModmail)
    (h : parseModmailMessageFromFullText text = some r) :
    r.status = specStatusOfLines (linesOf text) ∧
    ((linesOf text).find? isStatusLine = none → r.status = unknownStatus) := by
  cases hl : linesOf text with
  | nil =>
    rw [parseModmail_eq_nil text hl] at h
    exact absurd h (by simp)
  | cons l0 rest =>
    rw [parseModmail_eq_cons text l0 rest hl] at h
    by_cases hecho : (isLinkedEcho l0 || isCouldntFindEcho l0) = true
    · rw [if_pos hecho] at h; exact absurd h (by simp)
    · rw [if_neg hecho] at h
      cases hr : extractRedditNameOpt (l0 :: rest) with
      | none => rw [hr] at h; simp at h
      | some rn =>
        cases hd : extractDiscordNameOpt (l0 :: rest) with
        | none => rw [hr, hd] at h; simp at h
        | some dn =>
          rw [hr, hd] at h
          simp only [Option.some.injEq] at h
          have hst : r.status = statusOfLines (l0 :: rest) := by
            rw [← h]
          constructor
          · rw [hst, statusOfLines_eq_spec]
          · intro hfind
            rw [hst]
            unfold statusOfLines
            rw [hfind]

/-- Witness for the amended claim C9 at the scenario text of claim C8. -/
theorem claim_C9_amended_witness :
    recHermit.status = specStatusOfLines (linesOf c8Text) ∧
    ((linesOf c8Text).find? isStatusLine = none → recHermit.status = unknownStatus) :=
  claim_C9_amended c8Text recHermit (by decide)

/-! ### Claims C7 and C10 -/

/-- Claim C7 counterexample: in the src/index.js modmail-watch flow, a failing
role grant is only logged; the handler still attempts the rename, sets the
nickname, and sends the `✅ Linked ...` success reply.  With the role present,
the member lacking it, the grant failing and the rename succeeding, the
outcome records a success reply and a performed rename despite the failed
grant — contradicting the claim that a role-grant failure makes the attempt
fail with no success outcome and no rename. -/
theorem claim_C7_counterexample :
    (autoLinkOutcome true false false true).roleAdded = false ∧
    (autoLinkOutcome true false false true).repliedLinked = true ∧
    (autoLinkOutcome true false false true).renameAttempted = true ∧
    (autoLinkOutcome true false false true).nicknameSet = true :=
  ⟨rfl, rfl, rfl, rfl⟩

/-- Claim C7 amended: in the command-driven verification flow
(`handleVerifyCommand`), for a found non-banned record a role-grant failure is
fatal — the role-failure reply is sent, no success outcome is produced and the
rename is never attempted — while after a successful role grant the attempt
succeeds regardless of the rename outcome: the rename is attempted, a rename
failure only leaves the nickname unset (logged, not rolled back), and the
success reply is sent.  (In the modmail-watch script both failures are
non-fatal; see the counterexample.) -/
theorem claim_C7_amended (parsed : ParsedModmail) (renameOk : Bool)
    (hban : (!parsed.status.isEmpty && listContainsSub bannedMark (jsToLowerL parsed.status)) = false) :
    handleVerifyOutcome (some parsed) false renameOk =
      ⟨VerifyReply.roleFailNotice, false, false, false⟩ ∧
    handleVerifyOutcome (some parsed) true renameOk =
      ⟨VerifyReply.successNotice, true, true, renameOk⟩ := by
  constructor
  · simp [handleVerifyOutcome, hban]
  · simp [handleVerifyOutcome, hban]

/-- Witness for the amended claim C7 at the concrete record of claim C8 with a
failing rename oracle. -/
theorem claim_C7_amended_witness :
    handleVerifyOutcome (some recHermit) false false =
      ⟨VerifyReply.roleFailNotice, false, false, false⟩ ∧
    handleVerifyOutcome (some recHermit) true false =
      ⟨VerifyReply.successNotice, true, true, false⟩ :=
  claim_C7_amended recHermit false (by decide)

/-- Claim C10 counterexample: stripping exactly one `u/` means invoking the
verify command with `u/Name` is not always equivalent to invoking it with
`Name`.  Take `Name = "u/ser"` and a channel whose only (fresh) message is a
modmail whose author line reads `Author: u/ser`: the invocation with
`"u/u/ser"` searches for `"u/ser"` and finds the record, while the invocation
with `"u/ser"` searches for `"ser"` and finds nothing. -/
theorem claim_C10_counterexample :
    verifySearchOutcome doubleUText [msgUSer] memberAlice 0 0 = some (recUSer, msgUSer) ∧
    verifySearchOutcome uSerName [msgUSer] memberAlice 0 0 = none := by
  refine ⟨by decide, by decide⟩

/-- Claim C10 amended: exactly one leading `u/` (matched case-insensitively) is
stripped from the verify-command argument before the modmail search, so for
every `name` that does not itself start with the (case-insensitive) `u/`
prefix, invoking verify with `u/name` performs the same search with the same
result as invoking it with `name`.  (When `name` itself starts with `u/` the
two invocations search different names; see the counterexample.) -/
theorem claim_C10_amended :
    (∀ (name : List Char) (msgs : List RawMsg) (member : MemberInfo) (now hours : Int),
      uSlashMark.isPrefixOf (jsToLowerL name) = false →
      verifySearchOutcome ('u' :: '/' :: name) msgs member now hours =
        verifySearchOutcome name msgs member now hours) ∧
    (∀ s : List Char, uSlashMark.isPrefixOf (jsToLowerL s) = true →
      stripLeadingU s = s.drop 2) := by
  constructor
  · intro name msgs member now hours hnp
    unfold verifySearchOutcome
    have hlow : jsToLowerL ('u' :: '/' :: name) = 'u' :: '/' :: jsToLowerL name := by
      simp [jsToLowerL, show Char.toLower 'u' = 'u' from by decide,
        show Char.toLower '/' = '/' from by decide]
    have husl : uSlashMark = ['u', '/'] := by decide
    have h1 : stripLeadingU ('u' :: '/' :: name) = name := by
      unfold stripLeadingU
      rw [hlow, husl, if_pos (by simp [List.isPrefixOf])]
      rfl
    have h2 : stripLeadingU name = name := by
      unfold stripLeadingU
      rw [if_neg (by simp [hnp])]
    rw [h1, h2]
  · intro s hp
    unfold stripLeadingU
    rw [if_pos (by simp [hp])]

/-- Witness for the amended claim C10: prefixing `u/` to the prefix-free name
`"ser"` does not change the search outcome, and the strip drops exactly the
first two characters of `"u/ser"`. -/
theorem claim_C10_amended_witness :
    verifySearchOutcome ('u' :: '/' :: serName) [msgUSer] memberAlice 0 0 =
      verifySearchOutcome serName [msgUSer] memberAlice 0 0 ∧
    stripLeadingU uSerName = uSerName.drop 2 :=
  ⟨claim_C10_amended.1 serName [msgUSer] memberAlice 0 0 (by decide),
   claim_C10_amended.2 uSerName (by decide)⟩

/-! ### Helper lemmas for the scanner and matcher (claims C1, C2, C5) -/

theorem msgMatches_eq_none (t u g : List Char) (msg : RawMsg)
    (hp : parseModmailMessageFromFullText (buildFullTextFromMessage msg) = none) :
    msgMatches t u g msg = none := by
  unfold msgMatches
  rw [hp]

theorem msgMatches_eq_some_parse (t u g : List Char) (msg : RawMsg) (parsed : ParsedModmail)
    (hp : parseModmailMessageFromFullText (buildFullTextFromMessage msg) = some parsed) :
    msgMatches t u g msg =
      (if !parsed.status.isEmpty && listContainsSub bannedMark (jsToLowerL parsed.status) then
        none
      else if !(jsNormalize parsed.redditName = t) then none
      else if jsNormalize parsed.discordName = u ∨
          (!g.isEmpty ∧ jsNormalize parsed.discordName = g) then some (parsed, msg)
      else none) := by
  unfold msgMatches
  rw [hp]

theorem listContainsSub_banned_nil : listContainsSub bannedMark (jsToLowerL []) = false := by
  decide

theorem msgMatches_inv (t u g : List Char) (msg : RawMsg) (p : ParsedModmail) (m : RawMsg)
    (h : msgMatches t u g msg = some (p, m)) :
    m = msg ∧
    parseModmailMessageFromFullText (buildFullTextFromMessage msg) = some p ∧
    listContainsSub bannedMark (jsToLowerL p.status) = false ∧
    jsNormalize p.redditName = t ∧
    (jsNormalize p.discordName = u ∨ (g ≠ [] ∧ jsNormalize p.discordName = g)) := by
  cases hp : parseModmailMessageFromFullText (buildFullTextFromMessage msg) with
  | none => rw [msgMatches_eq_none t u g msg hp] at h; exact absurd h (by simp)
  | some parsed =>
    rw [msgMatches_eq_some_parse t u g msg parsed hp] at h
    by_cases h1 : (!parsed.status.isEmpty && listContainsSub bannedMark (jsToLowerL parsed.status)) = true
    · rw [if_pos h1] at h; exact absurd h (by simp)
    · rw [if_neg h1] at h
      by_cases h2 : (!(jsNormalize parsed.redditName = t)) = true
      · rw [if_pos h2] at h; exact absurd h (by simp)
      · rw [if_neg h2] at h
        by_cases h3 : jsNormalize parsed.discordName = u ∨
            (!g.isEmpty ∧ jsNormalize parsed.discordName = g)
        · rw [if_pos h3] at h
          have hpm : parsed = p ∧ msg = m := by
            have := Option.some_injective _ h
            exact ⟨congrArg Prod.fst this, congrArg Prod.snd this⟩
          obtain ⟨hparsed, hmsg⟩ := hpm
          subst hparsed
          subst hmsg
          refine ⟨rfl, rfl, ?_, ?_, ?_⟩
          · by_cases hse : parsed.status.isEmpty = true
            · have hst : parsed.status = [] := List.isEmpty_iff.mp hse
              rw [hst]
              exact listContainsSub_banned_nil
            · by_contra hcon
              rw [Bool.not_eq_false] at hcon
              have hse2 : parsed.status.isEmpty = false := Bool.eq_false_iff.mpr hse
              exact h1 (by rw [hse2, hcon]; rfl)
          · have h2b := h2
            simp only [Bool.not_eq_true, Bool.not_eq_eq_eq_not, Bool.not_true,
              decide_eq_false_iff_not, Decidable.not_not] at h2b
            simpa using h2b
          · rcases h3 with h3 | ⟨hg, h3⟩
            · exact Or.inl h3
            · refine Or.inr ⟨?_, h3⟩
              intro hgnil
              rw [hgnil] at hg
              simp at hg
        · rw [if_neg h3] at h; exact absurd h (by simp)

theorem findMatchAux_nil (t u g : List Char) (c : Int) (scanned : Nat) :
    findMatchAux t u g c [] scanned = none := rfl

theorem findMatchAux_cons (t u g : List Char) (c : Int) (msg : RawMsg) (rest : List RawMsg)
    (scanned : Nat) :
    findMatchAux t u g c (msg :: rest) scanned =
      if scanned + 1 > maxScannedCount then none
      else if msg.createdTimestamp < c then none
      else
        match msgMatches t u g msg with
        | some hit => some hit
        | none => findMatchAux t u g c rest (scanned + 1) := rfl

theorem findMatchAux_inv (t u g : List Char) (c : Int) :
    ∀ (msgs : List RawMsg) (scanned : Nat) (p : ParsedModmail) (m : RawMsg),
    findMatchAux t u g c msgs scanned = some (p, m) →
    listContainsSub bannedMark (jsToLowerL p.status) = false ∧
    jsNormalize p.redditName = t ∧
    (jsNormalize p.discordName = u ∨ (g ≠ [] ∧ jsNormalize p.discordName = g)) ∧
    c ≤ m.createdTimestamp := by
  intro msgs
  induction msgs with
  | nil => intro scanned p m h; rw [findMatchAux_nil] at h; exact absurd h (by simp)
  | cons msg rest ih =>
    intro scanned p m h
    rw [findMatchAux_cons] at h
    by_cases h1 : scanned + 1 > maxScannedCount
    · rw [if_pos h1] at h; exact absurd h (by simp)
    · rw [if_neg h1] at h
      by_cases h2 : msg.createdTimestamp < c
      · rw [if_pos h2] at h; exact absurd h (by simp)
      · rw [if_neg h2] at h
        cases hm : msgMatches t u g msg with
        | none =>
          rw [hm] at h
          exact ih (scanned + 1) p m h
        | some hit =>
          rw [hm] at h
          have hhit : hit = (p, m) := Option.some_injective _ h
          rw [hhit] at hm
          obtain ⟨hmm, _, hban, hrn, hdn⟩ := msgMatches_inv t u g msg p m hm
          refine ⟨hban, hrn, hdn, ?_⟩
          rw [hmm]
          exact Int.not_lt.mp h2

theorem findMatchAux_eq_findSome (t u g : List Char) (c : Int) :
    ∀ (msgs : List RawMsg) (scanned : Nat),
    findMatchAux t u g c msgs scanned =
      ((msgs.take (maxScannedCount - scanned)).takeWhile
        (fun m => !decide (m.createdTimestamp < c))).findSome? (msgMatches t u g) := by
  intro msgs
  induction msgs with
  | nil => intro scanned; simp [findMatchAux_nil]
  | cons msg rest ih =>
    intro scanned
    rw [findMatchAux_cons]
    by_cases h1 : scanned + 1 > maxScannedCount
    · rw [if_pos h1]
      have hz : maxScannedCount - scanned = 0 := by omega
      rw [hz]
      simp
    · rw [if_neg h1]
      have hsz : maxScannedCount - scanned = (maxScannedCount - (scanned + 1)) + 1 := by
        omega
      rw [hsz, List.take_succ_cons, List.takeWhile_cons]
      by_cases h2 : msg.createdTimestamp < c
      · rw [if_pos h2]
        have hbf : (!decide (msg.createdTimestamp < c)) = false := by simp [h2]
        rw [hbf]
        simp
      · rw [if_neg h2]
        have hbt : (!decide (msg.createdTimestamp < c)) = true := by simp [h2]
        rw [hbt]
        simp only [if_true]
        rw [List.findSome?_cons]
        cases hm : msgMatches t u g msg with
        | some hit => rfl
        | none => exact ih (scanned + 1)

theorem findMatchAux_stop (t u g : List Char) (c : Int) (old : RawMsg)
    (hold : old.createdTimestamp < c) :
    ∀ (pre rest rest2 : List RawMsg) (scanned : Nat),
    findMatchAux t u g c (pre ++ old :: rest) scanned =
      findMatchAux t u g c (pre ++ old :: rest2) scanned := by
  intro pre
  induction pre with
  | nil =>
    intro rest rest2 scanned
    simp only [List.nil_append]
    rw [findMatchAux_cons, findMatchAux_cons]
    by_cases h1 : scanned + 1 > maxScannedCount
    · rw [if_pos h1, if_pos h1]
    · rw [if_neg h1, if_neg h1, if_pos hold, if_pos hold]
  | cons q pre ih =>
    intro rest rest2 scanned
    simp only [List.cons_append]
    rw [findMatchAux_cons, findMatchAux_cons]
    by_cases h1 : scanned + 1 > maxScannedCount
    · rw [if_pos h1, if_pos h1]
    · rw [if_neg h1, if_neg h1]
      by_cases h2 : q.createdTimestamp < c
      · rw [if_pos h2, if_pos h2]
      · rw [if_neg h2, if_neg h2]
        cases hm : msgMatches t u g q with
        | some hit => rfl
        | none => exact ih rest rest2 (scanned + 1)

/-- Claim C1: the matcher returns the newest matching record.  First conjunct:
`findMatchingModmail` equals the first hit of the per-message check over the
newest-first sequence truncated to the scan cap and cut off at the first
too-old message — `List.findSome?` consumes the sequence in order and stops at
the first success, which is the newest passing record.  Second conjunct: for
two otherwise-matching messages at different timestamps, the newer one (first
in the newest-first sequence) is returned. -/
theorem claim_C1_matcher_newest_first :
    (∀ (msgs : List RawMsg) (rin : List Char) (member : MemberInfo) (now hours : Int),
      findMatchingModmail msgs rin member now hours =
        ((msgs.take maxScannedCount).takeWhile
          (fun m => !decide (m.createdTimestamp < now - hours * 60 * 60 * 1000))).findSome?
          (msgMatches (jsNormalize rin) (jsNormalize member.username)
            (jsNormalize member.globalName))) ∧
    (∀ (rin : List Char) (member : MemberInfo) (now hours : Int) (m1 m2 : RawMsg)
        (p1 p2 : ParsedModmail),
      now - hours * 60 * 60 * 1000 ≤ m2.createdTimestamp →
      m2.createdTimestamp < m1.createdTimestamp →
      msgMatches (jsNormalize rin) (jsNormalize member.username)
        (jsNormalize member.globalName) m1 = some (p1, m1) →
      msgMatches (jsNormalize rin) (jsNormalize member.username)
        (jsNormalize member.globalName) m2 = some (p2, m2) →
      findMatchingModmail [m1, m2] rin member now hours = some (p1, m1)) := by
  constructor
  · intro msgs rin member now hours
    unfold findMatchingModmail
    rw [findMatchAux_eq_findSome]
    norm_num
  · intro rin member now hours m1 m2 p1 p2 hc2 hlt h1 h2
    have hc1 : ¬ (m1.createdTimestamp < now - hours * 60 * 60 * 1000) := by omega
    unfold findMatchingModmail
    rw [findMatchAux_cons]
    rw [if_neg (by decide : ¬ (0 + 1 > maxScannedCount)), if_neg hc1, h1]

/-- Witness for claim C1: two fresh messages both carrying the scenario
record, the newer one first; the matcher returns the newer one. -/
theorem claim_C1_witness :
    findMatchingModmail [msgTopA, msgTopB] hermitName memberPika 0 0 =
      some (recHermit, msgTopA) :=
  claim_C1_matcher_newest_first.2 hermitName memberPika 0 0 msgTopA msgTopB recHermit recHermit
    (by decide) (by decide) (by decide) (by decide)

/-- Claim C2: whenever the matcher returns a record, the record's status does
not contain the banned marker (case-insensitively), its reddit name normalizes
to the query input's normal form, and its discord name normalizes to the
normal form of the invoking member's username or (when non-empty) global
name.  In particular a record whose status contains the banned marker is never
returned. -/
theorem claim_C2_match_invariant (msgs : List RawMsg) (rin : List Char)
    (member : MemberInfo) (now hours : Int) (p : ParsedModmail) (m : RawMsg)
    (h : findMatchingModmail msgs rin member now hours = some (p, m)) :
    listContainsSub bannedMark (jsToLowerL p.status) = false ∧
    jsNormalize p.redditName = jsNormalize rin ∧
    (jsNormalize p.discordName = jsNormalize member.username ∨
      (jsNormalize member.globalName ≠ [] ∧
        jsNormalize p.discordName = jsNormalize member.globalName)) := by
  unfold findMatchingModmail at h
  obtain ⟨hb, hr, hd, _⟩ := findMatchAux_inv _ _ _ _ msgs 0 p m h
  exact ⟨hb, hr, hd⟩

/-- Witness for claim C2 at a one-message channel holding the scenario
record. -/
theorem claim_C2_witness :
    listContainsSub bannedMark (jsToLowerL recHermit.status) = false ∧
    jsNormalize recHermit.redditName = jsNormalize hermitName ∧
    (jsNormalize recHermit.discordName = jsNormalize memberPika.username ∨
      (jsNormalize memberPika.globalName ≠ [] ∧
        jsNormalize recHermit.discordName = jsNormalize memberPika.globalName)) :=
  claim_C2_match_invariant [msgTopA] hermitName memberPika 0 0 recHermit msgTopA (by decide)

/-- Claim C5: a message strictly older than the cutoff is never yielded as the
match (first conjunct), and the scan stops at the first such message: the
result does not depend on anything after it in the sequence, so no older
message is inspected, parsed or matched (second conjunct). -/
theorem claim_C5_scan_boundary :
    (∀ (msgs : List RawMsg) (rin : List Char) (member : MemberInfo) (now hours : Int)
        (p : ParsedModmail) (m : RawMsg),
      findMatchingModmail msgs rin member now hours = some (p, m) →
      now - hours * 60 * 60 * 1000 ≤ m.createdTimestamp) ∧
    (∀ (pre : List RawMsg) (old : RawMsg) (rest rest2 : List RawMsg) (rin : List Char)
        (member : MemberInfo) (now hours : Int),
      old.createdTimestamp < now - hours * 60 * 60 * 1000 →
      findMatchingModmail (pre ++ old :: rest) rin member now hours =
        findMatchingModmail (pre ++ old :: rest2) rin member now hours) := by
  constructor
  · intro msgs rin member now hours p m h
    unfold findMatchingModmail at h
    exact (findMatchAux_inv _ _ _ _ msgs 0 p m h).2.2.2
  · intro pre old rest rest2 rin member now hours hold
    unfold findMatchingModmail
    exact findMatchAux_stop _ _ _ _ old hold pre rest rest2 0

/-- Witness for claim C5: with a stale message first, the scan result is the
same whether or not a fresh matching message sits behind it. -/
theorem claim_C5_witness :
    findMatchingModmail [msgStale, msgTopA] hermitName memberPika 0 0 =
      findMatchingModmail [msgStale] hermitName memberPika 0 0 :=
  claim_C5_scan_boundary.2 [] msgStale [msgTopA] [] hermitName memberPika 0 0 (by decide)

/-! ### Helper lemmas for claim C3 (parser fails closed) -/

theorem afterColonCapture_shape (s cap : List Char) (h : afterColonCapture s = some cap) :
    ∃ c cs, cap = c :: cs ∧ isJsWs c = false := by
  unfold afterColonCapture at h
  split at h
  · rename_i r
    by_cases ht : (r.dropWhile isJsWs).isEmpty = true
    · rw [if_pos ht] at h; exact absurd h (by simp)
    · rw [if_neg ht] at h
      have hcap := Option.some_injective _ h
      cases hd : r.dropWhile isJsWs with
      | nil => rw [hd] at ht; simp at ht
      | cons c cs =>
        have hcf : isJsWs c = false := dropWhile_head_false isJsWs r c cs hd
        refine ⟨c, cs.takeWhile (fun ch => !(isJsWs ch)), ?_, hcf⟩
        rw [← hcap, hd, List.takeWhile_cons]
        simp [hcf]
  · exact absurd h (by simp)

theorem matchDiscordScan_cons (c : Char) (rest : List Char) :
    matchDiscordScan (c :: rest) =
      match expectCi discordLit (c :: rest) with
      | some afterD =>
        match (discordGroupTail afterD).bind afterColonCapture with
        | some cap => some cap
        | none =>
          match afterColonCapture afterD with
          | some cap => some cap
          | none => matchDiscordScan rest
      | none => matchDiscordScan rest := rfl

theorem matchDiscordScan_shape :
    ∀ (s cap : List Char), matchDiscordScan s = some cap →
    ∃ c cs, cap = c :: cs ∧ isJsWs c = false := by
  intro s
  induction s with
  | nil => intro cap h; simp [matchDiscordScan] at h
  | cons c0 rest ih =>
    intro cap h
    rw [matchDiscordScan_cons] at h
    cases he : expectCi discordLit (c0 :: rest) with
    | none => rw [he] at h; exact ih cap h
    | some afterD =>
      simp only [he] at h
      cases hg : (discordGroupTail afterD).bind afterColonCapture with
      | some cap2 =>
        rw [hg] at h
        have hcc := Option.some_injective _ h
        obtain ⟨x, _, hx2⟩ := Option.bind_eq_some.mp hg
        obtain ⟨c, cs, hcap, hcf⟩ := afterColonCapture_shape x cap2 hx2
        exact ⟨c, cs, by rw [← hcc, hcap], hcf⟩
      | none =>
        rw [hg] at h
        cases ha : afterColonCapture afterD with
        | some cap2 =>
          rw [ha] at h
          have hcc := Option.some_injective _ h
          obtain ⟨c, cs, hcap, hcf⟩ := afterColonCapture_shape afterD cap2 ha
          exact ⟨c, cs, by rw [← hcc, hcap], hcf⟩
        | none => rw [ha] at h; exact ih cap h

theorem nonEmptyOpt_some (w v : List Char) (h : nonEmptyOpt w = some v) :
    v ≠ [] ∧ w = v := by
  unfold nonEmptyOpt at h
  by_cases hw : w.isEmpty = true
  · rw [if_pos hw] at h; exact absurd h (by simp)
  · rw [if_neg hw] at h
    have hwv := Option.some_injective _ h
    refine ⟨?_, hwv⟩
    intro hv
    apply hw
    rw [hwv, hv]
    rfl

theorem extractRedditNameOpt_ne_nil (lines : List (List Char)) (v : List Char)
    (h : extractRedditNameOpt lines = some v) : v ≠ [] := by
  unfold extractRedditNameOpt at h
  exact (nonEmptyOpt_some _ v h).1

theorem extractDiscordNameOpt_ne_nil (lines : List (List Char)) (v : List Char)
    (h : extractDiscordNameOpt lines = some v) : v ≠ [] := by
  unfold extractDiscordNameOpt at h
  cases hf : lines.find? isBodyLine with
  | none => rw [hf] at h; exact absurd h (by simp)
  | some l =>
    simp only [hf] at h
    cases hm : matchDiscordScan
        (stripMarkdown (jsTrim ((l.drop bodyLabel.length).dropWhile isJsWs))) with
    | none =>
      rw [hm] at h
      exact absurd h (by simp)
    | some cap =>
      rw [hm] at h
      have hv := Option.some_injective _ h
      obtain ⟨c, cs, hcap, hcf⟩ := matchDiscordScan_shape _ cap hm
      rw [← hv, hcap]
      exact jsTrim_cons_ne_nil hcf

/-- Claim C3: the parser fails closed.  If either the reddit-name extraction
(labelled line with first-line fallback) or the discord-name extraction (body
line plus pattern match) yields nothing, `parseModmailMessageFromFullText`
returns `none`; and every returned record carries exactly the two extracted
non-empty identities — no partial record is ever produced. -/
theorem claim_C3_parser_fails_closed (text : List Char) :
    ((extractRedditNameOpt (linesOf text) = none ∨
        extractDiscordNameOpt (linesOf text) = none) →
      parseModmailMessageFromFullText text = none) ∧
    (∀ r : ParsedModmail, parseModmailMessageFromFullText text = some r →
      extractRedditNameOpt (linesOf text) = some r.redditName ∧
      extractDiscordNameOpt (linesOf text) = some r.discordName ∧
      r.redditName ≠ [] ∧ r.discordName ≠ []) := by
  cases hl : linesOf text with
  | nil =>
    constructor
    · intro _
      exact parseModmail_eq_nil text hl
    · intro r hr
      rw [parseModmail_eq_nil text hl] at hr
      exact absurd hr (by simp)
  | cons l0 rest =>
    rw [parseModmail_eq_cons text l0 rest hl]
    constructor
    · intro hnone
      by_cases hecho : (isLinkedEcho l0 || isCouldntFindEcho l0) = true
      · rw [if_pos hecho]
      · rw [if_neg hecho]
        rcases hnone with hn | hn
        · rw [hn]
        · rw [hn]
          cases extractRedditNameOpt (l0 :: rest) <;> rfl
    · intro r hr
      by_cases hecho : (isLinkedEcho l0 || isCouldntFindEcho l0) = true
      · rw [if_pos hecho] at hr
        exact absurd hr (by simp)
      · rw [if_neg hecho] at hr
        cases hr1 : extractRedditNameOpt (l0 :: rest) with
        | none => rw [hr1] at hr; exact absurd hr (by simp)
        | some rn =>
          cases hr2 : extractDiscordNameOpt (l0 :: rest) with
          | none => rw [hr1, hr2] at hr; exact absurd hr (by simp)
          | some dn =>
            rw [hr1, hr2] at hr
            have hrec := Option.some_injective _ hr
            subst hrec
            exact ⟨rfl, rfl, extractRedditNameOpt_ne_nil (l0 :: rest) rn hr1,
              extractDiscordNameOpt_ne_nil (l0 :: rest) dn hr2⟩

/-- Witness for claim C3: a text with no body line has no discord-name
extraction, so the parser returns `none`. -/
theorem claim_C3_witness : parseModmailMessageFromFullText helloText = none :=
  (claim_C3_parser_fails_closed helloText).1 (Or.inr (by decide))

/-! ### Helper lemmas for claim C4 (Participant/Author extraction) -/

theorem matchLabelCapture_cons (label : List Char) (c : Char) (s : List Char) :
    matchLabelCapture label (c :: s) =
      if jsToLowerL ((c :: s).take label.length) = label then
        match captureAfterLabel ((c :: s).drop label.length) with
        | some cap => some cap
        | none => matchLabelCapture label s
      else matchLabelCapture label s := rfl

theorem matchLabelCapture_of_first (label : List Char) (hlab_ne : label ≠ []) :
    ∀ (pre lab rest cap : List Char),
    jsToLowerL lab = label →
    (∀ i, i < pre.length →
      jsToLowerL (((pre ++ lab ++ rest).drop i).take label.length) ≠ label) →
    captureAfterLabel rest = some cap →
    matchLabelCapture label (pre ++ lab ++ rest) = some cap := by
  intro pre
  induction pre with
  | nil =>
    intro lab rest cap hlow hfirst hcap
    have hlen : lab.length = label.length := by
      rw [← hlow]; simp [jsToLowerL]
    cases lab with
    | nil =>
      exfalso
      apply hlab_ne
      rw [← hlow]
      rfl
    | cons c lt =>
      simp only [List.nil_append, List.cons_append]
      rw [matchLabelCapture_cons]
      have htake : (c :: (lt ++ rest)).take label.length = c :: lt := by
        rw [← hlen, ← List.cons_append]
        exact List.take_left (c :: lt) rest
      have hdrop : (c :: (lt ++ rest)).drop label.length = rest := by
        rw [← hlen, ← List.cons_append]
        exact List.drop_left (c :: lt) rest
      rw [if_pos (by rw [htake]; exact hlow), hdrop, hcap]
  | cons a pre ih =>
    intro lab rest cap hlow hfirst hcap
    simp only [List.cons_append]
    rw [matchLabelCapture_cons]
    have h0 := hfirst 0 (by simp)
    simp only [List.cons_append, List.drop_zero] at h0
    rw [if_neg h0]
    refine ih lab rest cap hlow (fun i hi => ?_) hcap
    have hsh := hfirst (i + 1) (by simpa using Nat.succ_lt_succ hi)
    simp only [List.cons_append, List.drop_succ_cons] at hsh
    exact hsh

theorem captureAfterLabel_of_content (rest : List Char)
    (hne : rest.dropWhile isJsWs ≠ []) :
    captureAfterLabel rest =
      some ((rest.dropWhile isJsWs).takeWhile (fun c => !(isNewlineChar c))) := by
  unfold captureAfterLabel
  rw [if_neg (fun hemp => hne (List.isEmpty_iff.mp hemp))]

theorem dropWhile_takeWhile_comm (rest : List Char)
    (h : ∃ x ∈ rest.takeWhile (fun c => !(isNewlineChar c)), isJsWs x = false) :
    (rest.dropWhile isJsWs).takeWhile (fun c => !(isNewlineChar c)) =
      (rest.takeWhile (fun c => !(isNewlineChar c))).dropWhile isJsWs := by
  induction rest with
  | nil => rfl
  | cons c r ih =>
    by_cases hw : isJsWs c = true
    · by_cases hn : isNewlineChar c = true
      · exfalso
        obtain ⟨x, hx, hxw⟩ := h
        rw [List.takeWhile_cons] at hx
        have hb : (!(isNewlineChar c)) = false := by simp [hn]
        rw [hb] at hx
        simp at hx
      · have hnf : isNewlineChar c = false := Bool.eq_false_iff.mpr hn
        have hpn : (!(isNewlineChar c)) = true := by simp [hnf]
        rw [List.dropWhile_cons, if_pos (by simp [hw])]
        rw [List.takeWhile_cons, hpn]
        simp only [if_true]
        rw [List.dropWhile_cons, if_pos (by simp [hw])]
        apply ih
        obtain ⟨x, hx, hxw⟩ := h
        rw [List.takeWhile_cons, hpn] at hx
        simp only [if_true, List.mem_cons] at hx
        rcases hx with rfl | hx
        · rw [hw] at hxw
          exact absurd hxw (by decide)
        · exact ⟨x, hx, hxw⟩
    · have hwf : isJsWs c = false := Bool.eq_false_iff.mpr hw
      have hnf : isNewlineChar c = false := not_ws_of_not_newline hwf
      have hpn : (!(isNewlineChar c)) = true := by simp [hnf]
      rw [List.dropWhile_cons, if_neg (by simp [hwf])]
      rw [List.takeWhile_cons, hpn]
      simp only [if_true]
      rw [List.dropWhile_cons, if_neg (by simp [hwf])]

theorem exists_not_ws_of_jsTrim_ne_nil {l : List Char} (h : jsTrim l ≠ []) :
    ∃ x ∈ l, isJsWs x = false := by
  by_contra hcon
  push_neg at hcon
  apply h
  apply jsTrim_eq_nil_of_all_ws
  intro c hc
  have hcc := hcon c hc
  cases hb : isJsWs c with
  | false => exact absurd hb hcc
  | true => rfl

theorem dropWhile_ne_nil_of_exists {l : List Char} (h : ∃ x ∈ l, isJsWs x = false) :
    l.dropWhile isJsWs ≠ [] := by
  intro hnil
  obtain ⟨x, hx, hxf⟩ := h
  have hxx := List.dropWhile_eq_nil_iff.mp hnil x hx
  rw [hxf] at hxx
  exact absurd hxx (by decide)

theorem extractRedditUser_of_participant (content cap : List Char)
    (hm : matchLabelCapture participantLabel content = some cap)
    (hne : jsTrim cap ≠ []) :
    extractRedditUser content = jsTrim cap := by
  simp only [extractRedditUser, hm]
  rw [if_pos ?hc]
  case hc =>
    simp only [Bool.not_eq_true']
    cases he : (jsTrim cap).isEmpty
    · rfl
    · exact absurd (List.isEmpty_iff.mp he) hne

/-- Claim C4 counterexample: the extraction regex is not anchored to line
starts.  The text `"Author: Alice\nsee Participant: Bob here\nParticipant:
Carol"` contains a line beginning with `Participant:` (value `Carol`) and a
line beginning with `Author:` (value `Alice`), two different values; yet the
extracted external identity is `"Bob here"` — the capture at the first
occurrence of the label, which here sits mid-line — not the `Participant:`
line's value `"Carol"`.  (The command-script parser in part_000 recognizes no
`Participant:` label at all, so the claim also fails there.) -/
theorem claim_C4_counterexample :
    participantCarolLine ∈ splitOnChar '\n' c4CexText ∧
    authorAliceLine ∈ splitOnChar '\n' c4CexText ∧
    extractRedditUser c4CexText = bobHereName ∧
    bobHereName ≠ carolName := by
  refine ⟨by decide, by decide, by decide, by decide⟩

/-- Claim C4 amended: when the first case-insensitive occurrence of
`Participant:` in the text begins a line (nothing before it matches the label)
and the remainder of that line trims to a non-empty value `v`, the extracted
external identity is exactly `v` — the `Participant:` label is preferred over
any `Author:` line and over the first-line fallback, both of which are ignored
here.  The match is by first occurrence of the label anywhere in the text, not
by line. -/
theorem claim_C4_amended (pre lab rest v : List Char)
    (hlab : jsToLowerL lab = participantLabel)
    (hline : pre = [] ∨ ∃ q, pre = q ++ ['\n'])
    (hfirst : ∀ i, i < pre.length →
      jsToLowerL (((pre ++ lab ++ rest).drop i).take participantLabel.length) ≠
        participantLabel)
    (hv : jsTrim (rest.takeWhile (fun c => !(isNewlineChar c))) = v)
    (hne : v ≠ []) :
    extractRedditUser (pre ++ lab ++ rest) = v := by
  have hex : ∃ x ∈ rest.takeWhile (fun c => !(isNewlineChar c)), isJsWs x = false := by
    apply exists_not_ws_of_jsTrim_ne_nil
    rw [hv]
    exact hne
  have hexr : ∃ x ∈ rest, isJsWs x = false := by
    obtain ⟨x, hx, hxf⟩ := hex
    exact ⟨x, (List.takeWhile_prefix _).sublist.subset hx, hxf⟩
  have hdw : rest.dropWhile isJsWs ≠ [] := dropWhile_ne_nil_of_exists hexr
  have hcap : captureAfterLabel rest =
      some ((rest.dropWhile isJsWs).takeWhile (fun c => !(isNewlineChar c))) :=
    captureAfterLabel_of_content rest hdw
  have hmatch :=
    matchLabelCapture_of_first participantLabel (by decide) pre lab rest _ hlab hfirst hcap
  have hcomm := dropWhile_takeWhile_comm rest hex
  have htr : jsTrim ((rest.dropWhile isJsWs).takeWhile (fun c => !(isNewlineChar c))) = v := by
    rw [hcomm, jsTrim_dropWhile_absorb, hv]
  rw [extractRedditUser_of_participant (pre ++ lab ++ rest) _ hmatch
    (by rw [htr]; exact hne), htr]

/-- Witness for the amended claim C4: in `"Author: Alice\nParticipant: Carol"`
the label `Participant:` first occurs at a line start with value `Carol`, and
the extraction returns `Carol`, ignoring the `Author:` line before it. -/
theorem claim_C4_amended_witness :
    extractRedditUser (c4PreText ++ c4LabText ++ c4RestText) = carolName :=
  claim_C4_amended c4PreText c4LabText c4RestText carolName (by decide)
    (Or.inr ⟨authorAliceLine, by decide⟩) (by decide) (by decide) (by decide)
